import Mathlib

/-!
Verification of the serial automation engine (`cmd/serial_expect/main.go`).

Strings from the Go code are modelled as `List Char`; Go indexes bytes, but
every byte the engine inspects positionally (quotes, slashes, digits, spaces,
newlines) is ASCII, where the byte and character views coincide.  The Go
regexp library is modelled as an abstract compile function
`List Char → Except String (List Char → Bool)` passed as a parameter, since
only its call boundary appears in the translated file.
-/

namespace SerialExpect

/-- Character predicate of Go `unicode.IsSpace` restricted to the Latin-1
space characters (the full Unicode table is irrelevant to the engine, which
only meets ASCII whitespace). -/
def goIsSpace (c : Char) : Bool :=
  c = ' ' || c = '\t' || c = '\n' || c = '\x0b' || c = '\x0c' || c = '\r' ||
  c = '\x85' || c = '\xa0'

/-- Go `strings.TrimSpace`: drop whitespace from both ends. -/
def goTrimSpace (l : List Char) : List Char :=
  ((l.dropWhile goIsSpace).reverse.dropWhile goIsSpace).reverse

/-- Go `strings.ToLower` (ASCII case mapping, which is all the engine uses). -/
def goToLower (l : List Char) : List Char :=
  l.map Char.toLower

/-- Go `strings.HasPrefix p l`-style check: `p` is a leading segment of `l`. -/
def leadsList : List Char → List Char → Bool
  | [], _ => true
  | _ :: _, [] => false
  | p :: ps, c :: cs => p = c && leadsList ps cs

/-- Go `strings.Contains l p`: `p` occurs contiguously somewhere in `l`. -/
def containsList : List Char → List Char → Bool
  | [], p => leadsList p []
  | c :: rest, p => leadsList p (c :: rest) || containsList rest p

/-- Go `strings.Split(s, "\n")`. -/
def splitLines : List Char → List (List Char)
  | [] => [[]]
  | c :: rest =>
    if c = '\n' then [] :: splitLines rest
    else
      match splitLines rest with
      | l :: ls => (c :: l) :: ls
      | [] => [[c]]

/-! ## Pattern matcher (`parseExpectPattern`, `checkMatch`) -/

/-- The `MatchCaseInsensitive` / `MatchCaseSensitive` / `MatchRegex` iota
constants of the Go source. -/
inductive MatchKind where
  | caseInsensitive
  | caseSensitive
  | regex
deriving DecidableEq, Repr

/-- Go struct `ExpectPattern`.  The compiled regex is the abstract matcher
returned by the compile parameter. -/
structure ExpectPattern where
  pattern : List Char
  matchType : MatchKind
  regex : Option (List Char → Bool)

/-- Errors of Go `parseExpectPattern`. -/
inductive PatErr where
  | tooShort
  | invalidFormat
  | invalidRegex (msg : String)
deriving DecidableEq, Repr

/-- Go `parseExpectPattern`, with the regexp library abstracted as
`compile`. -/
def parseExpectPattern (compile : List Char → Except String (List Char → Bool))
    (pattern : List Char) : Except PatErr ExpectPattern :=
  match pattern with
  | c1 :: c2 :: cs =>
    let first := c1
    let last := (c2 :: cs).getLast (List.cons_ne_nil _ _)
    let content := (c2 :: cs).dropLast
    if first = '\'' ∧ last = '\'' then
      .ok ⟨content, .caseInsensitive, none⟩
    else if first = '"' ∧ last = '"' then
      .ok ⟨content, .caseSensitive, none⟩
    else if first = '/' ∧ last = '/' then
      match compile content with
      | .error e => .error (.invalidRegex e)
      | .ok f => .ok ⟨content, .regex, some f⟩
    else .error .invalidFormat
  | _ => .error .tooShort

/-- Go method `checkMatch`: evaluate a compiled pattern against the rolling
buffer and the current line. -/
def checkMatch (ep : ExpectPattern) (buffer currentLine : List Char) : Bool :=
  match ep.matchType with
  | .caseInsensitive => containsList (goToLower buffer) (goToLower ep.pattern)
  | .caseSensitive => leadsList ep.pattern (goTrimSpace currentLine)
  | .regex =>
    match ep.regex with
    | some f => f currentLine
    | none => false

/-! ## Expect execution (`handleExpect`)

The serial channel is modelled as the list of characters that arrive before
the receive-timeout fires; exhausting the list models the timeout firing. -/

/-- Errors of Go `handleExpect`. -/
inductive ExpErr where
  | invalidPattern (e : PatErr)
  | receiveTimeout
deriving DecidableEq, Repr

/-- The character loop of Go `handleExpect`: append each character to the
rolling buffer and current line (reset on newline), check the pattern after
every character, succeed on match (returning the unconsumed characters) and
fail with a receive timeout when the trace is exhausted. -/
def expectLoop (ep : ExpectPattern) (buffer currentLine : List Char) :
    List Char → Except ExpErr (List Char)
  | [] => .error .receiveTimeout
  | c :: rest =>
    let buffer' := buffer ++ [c]
    let currentLine' := if c = '\n' then [] else currentLine ++ [c]
    if checkMatch ep buffer' currentLine' then .ok rest
    else expectLoop ep buffer' currentLine' rest

/-- Go `handleExpect`: compile the pattern, then run the character loop
starting from EMPTY buffer and current-line (both are local variables of the
Go function, freshly declared per command). -/
def handleExpect (compile : List Char → Except String (List Char → Bool))
    (pattern : List Char) (chars : List Char) : Except ExpErr (List Char) :=
  match parseExpectPattern compile pattern with
  | .error e => .error (.invalidPattern e)
  | .ok ep => expectLoop ep [] [] chars

/-- The consecutive execution of a list of expect commands over one shared
serial stream, as `executeScript` performs it for a command list consisting
only of expect commands: each `handleExpect` consumes characters from the
single `readChan` where the previous one stopped. -/
def runExpects (compile : List Char → Except String (List Char → Bool)) :
    List (List Char) → List Char → Except ExpErr (List Char)
  | [], chars => .ok chars
  | p :: ps, chars =>
    match handleExpect compile p chars with
    | .ok rest => runExpects compile ps rest
    | .error e => .error e

/-! ## Duration and integer parsing (`time.ParseDuration`, `strconv.Atoi`)

`handleMonitor` disambiguates its parameter through these two Go library
functions; they are translated here from their library sources.  The one
simplification: Go computes the fractional part's contribution through
`float64`; the model uses exact natural division, which agrees on every
input whose fractional contribution is exact (and the monitor claims do not
depend on fractional nanoseconds). -/

/-- Go `leadingInt`: consume leading decimal digits into an accumulator,
failing on overflow past `2^63` (threshold checks as in the Go source). -/
def goLeadingInt : Nat → List Char → Except Unit (Nat × List Char)
  | x, [] => .ok (x, [])
  | x, c :: rest =>
    if c.isDigit then
      if x > 2 ^ 63 / 10 then .error ()
      else
        let x' := x * 10 + (c.toNat - 48)
        if x' > 2 ^ 63 then .error () else goLeadingInt x' rest
    else .ok (x, c :: rest)

/-- Go `leadingFraction`: consume digits after the decimal point, silently
saturating (not failing) on overflow; returns value, scale and remainder. -/
def goLeadingFraction : List Char → Nat → Nat → Bool → Nat × Nat × List Char
  | [], x, scale, _ => (x, scale, [])
  | c :: rest, x, scale, overflow =>
    if c.isDigit then
      if overflow then goLeadingFraction rest x scale true
      else if x > (2 ^ 63 - 1) / 10 then goLeadingFraction rest x scale true
      else
        let y := x * 10 + (c.toNat - 48)
        if y > 2 ^ 63 then goLeadingFraction rest x scale true
        else goLeadingFraction rest y (scale * 10) false
    else (x, scale, c :: rest)

/-- The `unitMap` of Go `time`: nanoseconds per unit token. -/
def unitNanos (u : List Char) : Option Nat :=
  if u = ['n', 's'] then some 1
  else if u = ['u', 's'] then some 1000
  else if u = ['µ', 's'] then some 1000
  else if u = ['μ', 's'] then some 1000
  else if u = ['m', 's'] then some 1000000
  else if u = ['s'] then some 1000000000
  else if u = ['m'] then some 60000000000
  else if u = ['h'] then some 3600000000000
  else none

/-- One character can start a number segment of a duration. -/
def durNumStart (c : Char) : Bool :=
  c = '.' || c.isDigit

/-- The segment loop of Go `time.ParseDuration`: repeatedly consume
`[0-9]*(\.[0-9]*)?unit`, accumulating nanoseconds.  `fuel` bounds the
recursion; each successful iteration consumes at least the unit token, so
`length + 1` fuel never runs out on the paths the theorems visit. -/
def goDurLoop : Nat → List Char → Nat → Except Unit Nat
  | 0, _, _ => .error ()
  | _ + 1, [], d => .ok d
  | fuel + 1, c0 :: s0, d =>
    let s := c0 :: s0
    if ¬durNumStart c0 then .error ()
    else
      match goLeadingInt 0 s with
      | .error _ => .error ()
      | .ok (v, s2) =>
        let pre := decide (s2.length ≠ s.length)
        let (f, scale, s3, post) :=
          match s2 with
          | '.' :: s2' =>
            let (f, scale, s3) := goLeadingFraction s2' 0 1 false
            (f, scale, s3, decide (s3.length ≠ s2'.length))
          | _ => (0, 1, s2, false)
        if pre = false ∧ post = false then .error ()
        else
          let u := s3.takeWhile (fun c => ¬durNumStart c)
          let s4 := s3.dropWhile (fun c => ¬durNumStart c)
          if u = [] then .error ()
          else
            match unitNanos u with
            | none => .error ()
            | some unit =>
              if v > 2 ^ 63 / unit then .error ()
              else
                let v2 := v * unit
                let v3 := if f > 0 then v2 + f * unit / scale else v2
                if f > 0 ∧ v3 > 2 ^ 63 then .error ()
                else
                  let d2 := d + v3
                  if d2 > 2 ^ 63 then .error () else goDurLoop fuel s4 d2

/-- Go `time.ParseDuration`: optional sign, special case `"0"`, then the
segment loop; the result is a signed nanosecond count. -/
def goParseDuration (s : List Char) : Except Unit Int :=
  let (neg, s1) :=
    match s with
    | '-' :: rest => (true, rest)
    | '+' :: rest => (false, rest)
    | _ => (false, s)
  if s1 = ['0'] then .ok 0
  else if s1 = [] then .error ()
  else
    match goDurLoop (s1.length + 1) s1 0 with
    | .error _ => .error ()
    | .ok d =>
      if neg then .ok (-(d : Int))
      else if d > 2 ^ 63 - 1 then .error () else .ok (d : Int)

/-- Go `strconv.Atoi` on a 64-bit platform: optional sign, nonempty digit
string, result within the `int64` range. -/
def goAtoi (s : List Char) : Except Unit Int :=
  let (neg, ds) :=
    match s with
    | '-' :: rest => (true, rest)
    | '+' :: rest => (false, rest)
    | _ => (false, s)
  if ds = [] then .error ()
  else if ds.all Char.isDigit then
    let n : Nat := ds.foldl (fun a c => a * 10 + (c.toNat - 48)) 0
    if neg then if n ≤ 2 ^ 63 then .ok (-(n : Int)) else .error ()
    else if n ≤ 2 ^ 63 - 1 then .ok (n : Int) else .error ()
  else .error ()

/-! ## Configuration data model -/

/-- Go struct `NamedScript` (`name` attribute plus raw body text). -/
structure NamedScript where
  name : String
  content : List Char
deriving DecidableEq, Repr

/-- Go struct `TryBlock` (`name`, `script`, `except`, `retry` attributes). -/
structure TryBlock where
  name : String
  script : String
  except : String
  retry : Bool
deriving DecidableEq, Repr

/-- Go struct `Command`.  `tryBlock`/`scriptMap` are only populated for
`"try"` commands, mirroring the nilable Go pointer and map fields. -/
structure Command where
  type : String
  value : List Char
  tryBlock : Option TryBlock := none
  scriptMap : Option (List (String × NamedScript)) := none
deriving DecidableEq, Repr

/-- The `script`/`try` elements of the Go `Config` struct. -/
structure Config where
  scripts : List NamedScript
  tries : List TryBlock
deriving DecidableEq, Repr

/-- Lookup in a Go `map[string]NamedScript`, modelled as an association list
with overwrite-on-insert. -/
def smLookup (m : List (String × NamedScript)) (k : String) :
    Option NamedScript :=
  (m.find? (fun p => p.1 = k)).map (fun p => p.2)

/-- Insertion into a Go `map[string]NamedScript`: overwrite an existing key,
otherwise append. -/
def smInsert (m : List (String × NamedScript)) (k : String)
    (v : NamedScript) : List (String × NamedScript) :=
  if m.any (fun p => p.1 = k) then
    m.map (fun p => if p.1 = k then (k, v) else p)
  else m ++ [(k, v)]

/-! ## Script parser (`parseScript`) -/

/-- Error of Go `parseScript`: the 1-based number and (trimmed) content of
the first invalid line. -/
inductive ScriptErr where
  | invalidCommand (lineNo : Nat) (line : List Char)
deriving DecidableEq, Repr

/-- The line loop of Go `parseScript` over the already-split lines, carrying
the 0-based index `i` of the current line. -/
def parseLines : List (List Char) → Nat → Except ScriptErr (List Command)
  | [], _ => .ok []
  | l :: rest, i =>
    let line := goTrimSpace l
    if line = [] then parseLines rest (i + 1)
    else if leadsList "send ".toList line then
      match parseLines rest (i + 1) with
      | .ok cs => .ok (⟨"send", line.drop 5, none, none⟩ :: cs)
      | .error e => .error e
    else if leadsList "expect ".toList line then
      match parseLines rest (i + 1) with
      | .ok cs => .ok (⟨"expect", line.drop 7, none, none⟩ :: cs)
      | .error e => .error e
    else if leadsList "monitor ".toList line then
      match parseLines rest (i + 1) with
      | .ok cs => .ok (⟨"monitor", line.drop 8, none, none⟩ :: cs)
      | .error e => .error e
    else if line = "monitor".toList then
      match parseLines rest (i + 1) with
      | .ok cs => .ok (⟨"monitor", [], none, none⟩ :: cs)
      | .error e => .error e
    else .error (.invalidCommand (i + 1) line)

/-- Go `parseScript`: trim the body, split on newlines, parse each line.
All-or-nothing: an invalid line yields an error and no commands. -/
def parseScript (scriptText : List Char) : Except ScriptErr (List Command) :=
  parseLines (splitLines (goTrimSpace scriptText)) 0

/-! ## Monitor execution (`handleMonitor`)

The monitor loop's `select` is modelled over a trace of events: a character
arriving on the read channel, or the duration timer firing.  In the Go code
the timer channel is nil unless the monitor counts time, so a timer event in
the trace is met by the same `maxLines == 0` guard the Go code performs. -/

/-- One event observed by the monitor loop. -/
inductive MEv where
  | ch (c : Char)
  | tick
deriving DecidableEq, Repr

/-- Errors of Go `handleMonitor`.  `starved` models the modelled trace
ending while the loop is still blocked (never reached by the theorems). -/
inductive MonErr where
  | invalidParameter
  | starved
deriving DecidableEq, Repr

/-- The parameter-parsing phase of Go `handleMonitor`: returns the pair of
the Go locals `(monitorDuration, maxLines)`.  Empty parameter means a 24-hour
duration; otherwise the parameter is tried as a duration first, then as a
line count; if both fail the command fails before touching the channel. -/
def parseMonitorParam (p : List Char) : Except Unit (Int × Int) :=
  if p = [] then .ok ((86400000000000 : Int), 0)
  else
    match goParseDuration p with
    | .ok d => .ok (d, 0)
    | .error _ =>
      match goAtoi p with
      | .ok n => .ok (0, n)
      | .error _ => .error ()

/-- The event loop of Go `handleMonitor`: count completed lines on `\n`,
stop with success when a positive line bound is reached; on a timer event,
stop with success when monitoring by time (`maxLines = 0`). -/
def monLoop (maxLines : Int) (lineCount : Nat) :
    List MEv → Except MonErr Unit
  | [] => .error .starved
  | .ch c :: rest =>
    if c = '\n' then
      let lc := lineCount + 1
      if maxLines > 0 ∧ (lc : Int) ≥ maxLines then .ok ()
      else monLoop maxLines lc rest
    else monLoop maxLines lineCount rest
  | .tick :: rest =>
    if maxLines = 0 then .ok () else monLoop maxLines lineCount rest

/-- Go `handleMonitor`: parse the parameter, then run the event loop. -/
def handleMonitor (p : List Char) (evs : List MEv) : Except MonErr Unit :=
  match parseMonitorParam p with
  | .error _ => .error .invalidParameter
  | .ok dm => monLoop dm.2 0 evs

/-- Number of newline characters in a monitor event trace. -/
def countNl (evs : List MEv) : Nat :=
  evs.countP (fun e =>
    match e with
    | .ch c => c = '\n'
    | .tick => false)

/-! ## Script resolver (`selectScripts`, `parseTryBlock`) -/

/-- The default name Go synthesizes for the `i`-th (0-based) unnamed
script: `script1`, `script2`, ... -/
def defaultName (i : Nat) : String :=
  "script" ++ toString (i + 1)

/-- The virtual script content Go stores for a try block. -/
def tryMarker (name : String) : List Char :=
  ("__TRY_BLOCK__" ++ name).toList

/-- The first loop of Go `selectScripts`: map every config script under its
name, synthesizing default names for unnamed scripts. -/
def buildScriptMapAll (scripts : List NamedScript) :
    List (String × NamedScript) :=
  scripts.enum.foldl
    (fun m p =>
      let name := if p.2.name = "" then defaultName p.1 else p.2.name
      smInsert m name ⟨name, p.2.content⟩)
    []

/-- Errors of Go `selectScripts`. -/
inductive SelErr where
  | unnamedTry
  | missingScript (tbName script : String)
  | missingExcept (tbName script : String)
  | noScripts
  | notFound (requested : String)
deriving DecidableEq, Repr

/-- The try-block loop of Go `selectScripts`: validate each try block's
`script`/`except` references against the map built so far (which already
contains earlier try blocks as virtual scripts), then add the try block
itself as a virtual script. -/
def addTries (m : List (String × NamedScript)) :
    List TryBlock → Except SelErr (List (String × NamedScript))
  | [] => .ok m
  | tb :: rest =>
    if tb.name = "" then .error .unnamedTry
    else if (smLookup m tb.script).isNone then
      .error (.missingScript tb.name tb.script)
    else if tb.except ≠ "" ∧ (smLookup m tb.except).isNone then
      .error (.missingExcept tb.name tb.except)
    else addTries (smInsert m tb.name ⟨tb.name, tryMarker tb.name⟩) rest

/-- Go `selectScripts`: build and validate the full script map, then select
the requested scripts (or the first declared unit when none requested). -/
def selectScripts (config : Config) (scriptNames : List String) :
    Except SelErr (List NamedScript) :=
  match addTries (buildScriptMapAll config.scripts) config.tries with
  | .error e => .error e
  | .ok m =>
    if m = [] then .error .noScripts
    else
      match scriptNames with
      | [] =>
        match config.scripts with
        | s :: _ =>
          .ok [⟨if s.name = "" then "script1" else s.name, s.content⟩]
        | [] =>
          match config.tries with
          | tb :: _ => .ok [⟨tb.name, tryMarker tb.name⟩]
          | [] => .ok []
      | _ :: _ =>
        let found := scriptNames.map (fun n => smLookup m n)
        if found.all Option.isSome then .ok (found.reduceOption)
        else
          match scriptNames.find? (fun n => (smLookup m n).isNone) with
          | some n => .error (.notFound n)
          | none => .error .noScripts

/-- The script map Go `parseTryBlock` builds for try execution: only
explicitly NAMED scripts (unnamed scripts are skipped). -/
def tryScriptMap (config : Config) : List (String × NamedScript) :=
  config.scripts.foldl
    (fun m s => if s.name = "" then m else smInsert m s.name s) []

/-! ## Try execution (`handleTry`) and the command loop (`executeScript`)

The primitive handlers (`handleSend`/`handleExpect`/`handleMonitor`) are
abstracted for the control-flow layer as one state-transforming executor
`exec : Command → σ → Except ε Unit × σ` — the dispatch on the command type
to the three concrete handlers happens inside `exec`, exactly as the Go
`switch` dispatches the same three cases.  The concrete handlers are
modelled individually above; the claims about `handleTry`/`executeScript`
are purely about this control flow, so they are proved for every `exec`. -/

/-- A command type that the per-command `switch` of the Go try/attempt loops
dispatches on (`send`, `expect`, `monitor`; anything else falls through the
switch and is skipped). -/
def primCmd (c : Command) : Bool :=
  c.type = "send" || c.type = "expect" || c.type = "monitor"

/-- One attempt of the try block's main script, mirroring the Go loop body:
every command is executed in order; a failing command's error is recorded in
`lastError` (the `break` after recording it is a Go `switch`-break, a no-op,
so execution continues with the NEXT command and a later failure overwrites
`lastError`). -/
def runAttemptCmds {σ ε : Type} (exec : Command → σ → Except ε Unit × σ) :
    List Command → Option ε → σ → Option ε × σ
  | [], le, s => (le, s)
  | c :: cs, le, s =>
    if primCmd c then
      match exec c s with
      | (.ok _, s') => runAttemptCmds exec cs le s'
      | (.error e, s') => runAttemptCmds exec cs (some e) s'
    else runAttemptCmds exec cs le s

/-- The attempt loop of Go `handleTry` (`for attempt := 1; attempt <=
maxRetries`): rerun the main script while it fails and attempts remain;
returns `none` on a successful attempt, else the LAST attempt's recorded
error. -/
def tryAttempts {σ ε : Type} (exec : Command → σ → Except ε Unit × σ)
    (cmds : List Command) : Nat → σ → Option ε × σ
  | 0, s => (none, s)
  | n + 1, s =>
    match runAttemptCmds exec cmds none s with
    | (none, s') => (none, s')
    | (some e, s') =>
      if n = 0 then (some e, s') else tryAttempts exec cmds n s'

/-- The except-script loop of Go `handleTry`: every command is executed and
errors are logged and discarded (best effort). -/
def runExceptCmds {σ ε : Type} (exec : Command → σ → Except ε Unit × σ) :
    List Command → σ → σ
  | [], s => s
  | c :: cs, s =>
    if primCmd c then runExceptCmds exec cs (exec c s).2
    else runExceptCmds exec cs s

/-- Errors of Go `handleTry`. -/
inductive TryErr (ε : Type) where
  | mainNotFound (script tbName : String)
  | parseMain (script : String) (e : ScriptErr)
  | exceptNotFound (script tbName : String)
  | parseExcept (script : String) (e : ScriptErr)
  | tryFailed (tbName : String) (e : ε)
deriving DecidableEq, Repr

/-- Go `handleTry`: look up and parse the main script, run up to
`maxRetries` attempts, on persistent failure run the configured except
script best-effort, and finally report failure wrapping the recorded
main-script error. -/
def handleTry {σ ε : Type} (exec : Command → σ → Except ε Unit × σ)
    (tb : TryBlock) (scriptMap : List (String × NamedScript)) (s : σ) :
    Except (TryErr ε) Unit × σ :=
  match smLookup scriptMap tb.script with
  | none => (.error (.mainNotFound tb.script tb.name), s)
  | some mainScript =>
    match parseScript mainScript.content with
    | .error e => (.error (.parseMain tb.script e), s)
    | .ok cmds =>
      let maxRetries := if tb.retry then 2 else 1
      match tryAttempts exec cmds maxRetries s with
      | (none, s') => (.ok (), s')
      | (some lastError, s') =>
        if tb.except ≠ "" then
          match smLookup scriptMap tb.except with
          | none => (.error (.exceptNotFound tb.except tb.name), s')
          | some exceptScript =>
            match parseScript exceptScript.content with
            | .error e => (.error (.parseExcept tb.except e), s')
            | .ok ecmds =>
              (.error (.tryFailed tb.name lastError),
                runExceptCmds exec ecmds s')
        else (.error (.tryFailed tb.name lastError), s')

/-- Session-level errors of Go `executeScript`. -/
inductive SessErr (ε : Type) where
  | prim (e : ε)
  | tryE (e : TryErr ε)
deriving DecidableEq, Repr

/-- Go `executeScript`: run the top-level command list, stopping at the
first command whose handler returns an error (the error of each handler is
returned immediately, aborting the remaining commands). -/
def executeScript {σ ε : Type} (exec : Command → σ → Except ε Unit × σ) :
    List Command → σ → Except (SessErr ε) Unit × σ
  | [], s => (.ok (), s)
  | c :: cs, s =>
    if primCmd c then
      match exec c s with
      | (.ok _, s') => executeScript exec cs s'
      | (.error e, s') => (.error (.prim e), s')
    else if c.type = "try" then
      match handleTry exec (c.tryBlock.getD ⟨"", "", "", false⟩)
          (c.scriptMap.getD []) s with
      | (.ok _, s') => executeScript exec cs s'
      | (.error e, s') => (.error (.tryE e), s')
    else executeScript exec cs s

/-- State instrumentation used to observe which primitive commands a run
executes: wraps an executor so the state also carries the log of executed
commands. -/
def execLog {σ ε : Type} (exec : Command → σ → Except ε Unit × σ) :
    Command → σ × List Command → Except ε Unit × (σ × List Command) :=
  fun c p =>
    match exec c p.1 with
    | (r, s') => (r, (s', p.2 ++ [c]))

/-! ## Session timeout policy (`executeScriptWithTimeout`)

Real time is abstracted to the single quantity the `select` compares: the
time at which `executeScript` would deliver its result, measured against
the effective context deadline.  A completion strictly before the deadline
yields the script's result; otherwise the context fires first and the run
is reported as a timeout. -/

/-- Go's check for monitor commands in the command sequence. -/
def hasMonitorCommand (cmds : List Command) : Bool :=
  cmds.any (fun c => c.type = "monitor")

/-- Twenty-four hours in nanoseconds — the extended deadline Go installs when the
sequence contains a monitor command. -/
def nanos24h : Nat := 86400000000000

/-- The effective session deadline: the configured script timeout, replaced
by 24 hours when any monitor command is present. -/
def effectiveSessionBound (cmds : List Command) (scriptTimeout : Nat) : Nat :=
  if hasMonitorCommand cmds then nanos24h else scriptTimeout

/-- Outcome of an `executeScriptWithTimeout` run: the script's own result,
or one of the two distinct timeout failures the Go function produces. -/
inductive SessionResult (ε : Type) where
  | completed (r : Except ε Unit)
  | timedOutExtended
  | timedOut (scriptTimeout : Nat)
deriving Repr

/-- Go `executeScriptWithTimeout`, time-abstracted: `scriptResult` is what
`executeScript` would return, `completionTime` (nanoseconds) is when it
would return it. -/
def executeScriptWithTimeout {ε : Type} (cmds : List Command)
    (scriptTimeout : Nat) (scriptResult : Except ε Unit)
    (completionTime : Nat) : SessionResult ε :=
  if completionTime < effectiveSessionBound cmds scriptTimeout then
    .completed scriptResult
  else if hasMonitorCommand cmds then .timedOutExtended
  else .timedOut scriptTimeout

/-! ## Dry-run mode (`executeDryRun`)

The transcript file is split into lines; the read cursor is modelled by
passing the remaining lines along. -/

/-- Errors of Go `executeDryRun`. -/
inductive DryErr where
  | invalidPattern (value : List Char) (e : PatErr)
  | notFound (value : List Char)
  | scriptNotFound (script : String)
  | parseFailed (e : ScriptErr)
deriving DecidableEq, Repr

/-- Go `checkDryRunMatch`: like `checkMatch` but evaluated per transcript
line (the line plays both the buffer and current-line roles; the
`linesSinceStart` parameter of the Go function is unused by the matching
and omitted). -/
def checkDryRunMatch (ep : ExpectPattern) (line : List Char) : Bool :=
  match ep.matchType with
  | .caseInsensitive => containsList (goToLower line) (goToLower ep.pattern)
  | .caseSensitive => leadsList ep.pattern (goTrimSpace line)
  | .regex =>
    match ep.regex with
    | some f => f line
    | none => false

/-- The dry-run expect scan: advance through the remaining lines until one
matches; `some rest` leaves the cursor after the matched line, `none` means
the scan consumed all remaining lines without a match. -/
def dryExpectScan (ep : ExpectPattern) :
    List (List Char) → Option (List (List Char))
  | [] => none
  | l :: rest => if checkDryRunMatch ep l then some rest else dryExpectScan ep rest

/-- The inner command loop Go `executeDryRun` runs for a try block's main
script: sends are echoed, a mismatched expect consumes all remaining lines
but does NOT fail (execution continues), monitor previews up to 10 lines. -/
def dryRunSub (compile : List Char → Except String (List Char → Bool)) :
    List Command → List (List Char) → Except DryErr (List (List Char))
  | [], ls => .ok ls
  | c :: cs, ls =>
    if c.type = "send" then dryRunSub compile cs ls
    else if c.type = "expect" then
      match parseExpectPattern compile c.value with
      | .error e => .error (.invalidPattern c.value e)
      | .ok ep =>
        match dryExpectScan ep ls with
        | some rest => dryRunSub compile cs rest
        | none => dryRunSub compile cs []
    else if c.type = "monitor" then dryRunSub compile cs (ls.drop 10)
    else dryRunSub compile cs ls

/-- The try-command case of Go `executeDryRun`: resolve and parse the main
script, then replay it with the non-aborting inner loop. -/
def dryRunTry (compile : List Char → Except String (List Char → Bool))
    (tb : TryBlock) (scriptMap : List (String × NamedScript))
    (ls : List (List Char)) : Except DryErr (List (List Char)) :=
  match smLookup scriptMap tb.script with
  | none => .error (.scriptNotFound tb.script)
  | some ms =>
    match parseScript ms.content with
    | .error e => .error (.parseFailed e)
    | .ok cmds => dryRunSub compile cmds ls

/-- Go `executeDryRun`'s top-level command loop: a TOP-LEVEL expect whose
pattern matches no remaining line returns a pattern-not-found error,
aborting the dry run. -/
def executeDryRun (compile : List Char → Except String (List Char → Bool)) :
    List Command → List (List Char) → Except DryErr (List (List Char))
  | [], ls => .ok ls
  | c :: cs, ls =>
    if c.type = "send" then executeDryRun compile cs ls
    else if c.type = "expect" then
      match parseExpectPattern compile c.value with
      | .error e => .error (.invalidPattern c.value e)
      | .ok ep =>
        match dryExpectScan ep ls with
        | some rest => executeDryRun compile cs rest
        | none => .error (.notFound c.value)
    else if c.type = "try" then
      match dryRunTry compile (c.tryBlock.getD ⟨"", "", "", false⟩)
          (c.scriptMap.getD []) ls with
      | .error e => .error e
      | .ok rest => executeDryRun compile cs rest
    else if c.type = "monitor" then executeDryRun compile cs (ls.drop 10)
    else executeDryRun compile cs ls

/-! ## Theorems -/

/-- A compile function for patterns that use no regex framing (any value
works; the quote-framed claims never invoke it). -/
def noCompile : List Char → Except String (List Char → Bool) :=
  fun _ => .error "regex not used"

/-- The command produced by one (already trimmed) valid script line, per
the spec's four recognized forms; `none` for any other nonempty line. -/
def lineCommand (line : List Char) : Option Command :=
  if leadsList "send ".toList line then some ⟨"send", line.drop 5, none, none⟩
  else if leadsList "expect ".toList line then
    some ⟨"expect", line.drop 7, none, none⟩
  else if leadsList "monitor ".toList line then
    some ⟨"monitor", line.drop 8, none, none⟩
  else if line = "monitor".toList then some ⟨"monitor", [], none, none⟩
  else none

/-- A script line is acceptable: empty after trimming, or one of the four
recognized forms. -/
def lineOk (line : List Char) : Bool :=
  line.isEmpty || (lineCommand line).isSome

/-- The first unacceptable line of a split script body, with its 1-based
number and trimmed content. -/
def firstBadLine : List (List Char) → Nat → Option (Nat × List Char)
  | [], _ => none
  | l :: rest, i =>
    if lineOk (goTrimSpace l) then firstBadLine rest (i + 1)
    else some (i + 1, goTrimSpace l)

/-- The configuration of the C7 counterexample: one UNNAMED script (which
resolution exposes under the synthesized default name `script1`) and a try
block whose main script reference is that default name. -/
def cexConfig : Config :=
  ⟨[⟨"", "send 'x'".toList⟩], [⟨"t", "script1", "", false⟩]⟩

/-- The configuration of the C7 witness: two named scripts and a try block
referencing them by name. -/
def c7config : Config :=
  ⟨[⟨"main", "send 'x'".toList⟩, ⟨"exc", "send 'y'".toList⟩],
   [⟨"t", "main", "exc", true⟩]⟩

/-- The executor of the C2 evaluation: every primitive fails with an error
naming the command's raw value, and the state logs each executed value. -/
def failLogExec : Command → List String → Except String Unit × List String :=
  fun c s => (.error (String.mk c.value), s ++ [String.mk c.value])

/-- Reduction of `parseExpectPattern` on an explicitly framed raw pattern
`first :: content ++ [last]`. -/
theorem parseExpectPattern_frame
    (compile : List Char → Except String (List Char → Bool))
    (a b : Char) (mid : List Char) :
    parseExpectPattern compile (a :: (mid ++ [b])) =
      (if a = '\'' ∧ b = '\'' then .ok ⟨mid, .caseInsensitive, none⟩
       else if a = '"' ∧ b = '"' then .ok ⟨mid, .caseSensitive, none⟩
       else if a = '/' ∧ b = '/' then
         match compile mid with
         | .error e => .error (.invalidRegex e)
         | .ok f => .ok ⟨mid, .regex, some f⟩
       else .error .invalidFormat) := by
  cases mid with
  | nil => simp [parseExpectPattern]
  | cons m ms =>
    simp [parseExpectPattern, List.getLast_cons, List.getLast_append_singleton,
      List.dropLast_cons_of_ne_nil, List.dropLast_concat]

/-- Claim C3: for every raw expect pattern of length at least 2, a
single-quote framing compiles to the case-insensitive (lower-cased)
substring matcher over the rolling buffer; a double-quote framing compiles
to the case-sensitive matcher testing the unquoted text as a prefix of the
whitespace-trimmed current line; a slash framing compiles the enclosed
regular expression and matches it against the current line only (never the
rolling buffer); any other framing, or a raw pattern of length below 2,
yields a compile error. -/
theorem claim_C3 (compile : List Char → Except String (List Char → Bool)) :
    (∀ pat : List Char, pat.length < 2 →
       parseExpectPattern compile pat = .error .tooShort)
  ∧ (∀ mid : List Char,
       parseExpectPattern compile ('\'' :: (mid ++ ['\''])) =
         .ok ⟨mid, .caseInsensitive, none⟩)
  ∧ (∀ mid buffer line : List Char,
       checkMatch ⟨mid, .caseInsensitive, none⟩ buffer line =
         containsList (goToLower buffer) (goToLower mid))
  ∧ (∀ mid : List Char,
       parseExpectPattern compile ('"' :: (mid ++ ['"'])) =
         .ok ⟨mid, .caseSensitive, none⟩)
  ∧ (∀ mid buffer line : List Char,
       checkMatch ⟨mid, .caseSensitive, none⟩ buffer line =
         leadsList mid (goTrimSpace line))
  ∧ (∀ (mid : List Char) (f : List Char → Bool), compile mid = .ok f →
       parseExpectPattern compile ('/' :: (mid ++ ['/'])) =
         .ok ⟨mid, .regex, some f⟩)
  ∧ (∀ (mid : List Char) (f : List Char → Bool) (buffer line : List Char),
       checkMatch ⟨mid, .regex, some f⟩ buffer line = f line)
  ∧ (∀ (mid : List Char) (e : String), compile mid = .error e →
       parseExpectPattern compile ('/' :: (mid ++ ['/'])) =
         .error (.invalidRegex e))
  ∧ (∀ (a b : Char) (mid : List Char),
       ¬(a = '\'' ∧ b = '\'') → ¬(a = '"' ∧ b = '"') → ¬(a = '/' ∧ b = '/') →
       parseExpectPattern compile (a :: (mid ++ [b])) =
         .error .invalidFormat) := by
  refine ⟨?_, ?_, ?_, ?_, ?_, ?_, ?_, ?_, ?_⟩
  · intro pat h
    match pat with
    | [] => rfl
    | [c] => rfl
    | c1 :: c2 :: cs => simp at h; omega
  · intro mid
    simp [parseExpectPattern_frame]
  · intro mid buffer line
    rfl
  · intro mid
    simp [parseExpectPattern_frame]
  · intro mid buffer line
    rfl
  · intro mid f h
    simp [parseExpectPattern_frame, h]
  · intro mid f buffer line
    rfl
  · intro mid e h
    simp [parseExpectPattern_frame, h]
  · intro a b mid h1 h2 h3
    simp [parseExpectPattern_frame, h1, h2, h3]

/-- Witness for C3: the three framings and the too-short case evaluated at
concrete patterns. -/
theorem claim_C3_witness :
    parseExpectPattern noCompile "'ok'".toList =
      .ok ⟨"ok".toList, .caseInsensitive, none⟩
  ∧ checkMatch ⟨"ok".toList, .caseInsensitive, none⟩ "xxOKy".toList [] =
      containsList (goToLower "xxOKy".toList) (goToLower "ok".toList)
  ∧ parseExpectPattern noCompile "\"ab\"".toList =
      .ok ⟨"ab".toList, .caseSensitive, none⟩
  ∧ parseExpectPattern noCompile "x".toList = .error .tooShort
  ∧ parseExpectPattern noCompile "'a\"".toList = .error .invalidFormat :=
  ⟨(claim_C3 noCompile).2.1 "ok".toList,
   (claim_C3 noCompile).2.2.1 "ok".toList "xxOKy".toList [],
   (claim_C3 noCompile).2.2.2.1 "ab".toList,
   (claim_C3 noCompile).1 "x".toList (by decide),
   (claim_C3 noCompile).2.2.2.2.2.2.2.2 '\'' '"' ['a']
     (by decide) (by decide) (by decide)⟩

/-- A list contains the empty pattern. -/
theorem containsList_nil (l : List Char) : containsList l [] = true := by
  cases l <;> simp [containsList, leadsList]

/-- A leading segment of `l` is a leading segment of `l ++ l'`. -/
theorem leadsList_append (p : List Char) :
    ∀ l l' : List Char, leadsList p l = true → leadsList p (l ++ l') = true := by
  induction p with
  | nil => intro l l' _; rfl
  | cons a ps ih =>
    intro l l' h
    cases l with
    | nil => simp [leadsList] at h
    | cons c cs =>
      simp only [leadsList, Bool.and_eq_true, decide_eq_true_eq] at h
      simp only [List.cons_append, leadsList, Bool.and_eq_true, decide_eq_true_eq]
      exact ⟨h.1, ih cs l' h.2⟩

/-- Occurrence of `p` in `l` is preserved by extending `l` on the right. -/
theorem containsList_append (p : List Char) :
    ∀ l l' : List Char, containsList l p = true → containsList (l ++ l') p = true := by
  intro l
  induction l with
  | nil =>
    intro l' h
    cases p with
    | nil => exact containsList_nil l'
    | cons a ps => simp [containsList, leadsList] at h
  | cons c cs ih =>
    intro l' h
    simp only [containsList, Bool.or_eq_true] at h
    simp only [List.cons_append, containsList, Bool.or_eq_true]
    rcases h with h | h
    · exact Or.inl (leadsList_append p (c :: cs) l' h)
    · exact Or.inr (ih l' h)

/-- Claim C10: the delimiter-only patterns compile (empty content passes
the length check), every resulting matcher accepts every buffer and line,
and an Expect running such a pattern succeeds exactly upon the first
received character — never before one arrives. -/
theorem claim_C10 (compile : List Char → Except String (List Char → Bool))
    (f : List Char → Bool) (hc : compile [] = .ok f)
    (hf : ∀ l, f l = true) :
    parseExpectPattern compile "''".toList = .ok ⟨[], .caseInsensitive, none⟩
  ∧ parseExpectPattern compile "\"\"".toList = .ok ⟨[], .caseSensitive, none⟩
  ∧ parseExpectPattern compile "//".toList = .ok ⟨[], .regex, some f⟩
  ∧ (∀ b l : List Char,
       checkMatch ⟨[], .caseInsensitive, none⟩ b l = true
     ∧ checkMatch ⟨[], .caseSensitive, none⟩ b l = true
     ∧ checkMatch ⟨[], .regex, some f⟩ b l = true)
  ∧ (∀ (c : Char) (rest : List Char),
       handleExpect compile "''".toList (c :: rest) = .ok rest
     ∧ handleExpect compile "\"\"".toList (c :: rest) = .ok rest
     ∧ handleExpect compile "//".toList (c :: rest) = .ok rest)
  ∧ handleExpect compile "''".toList [] = .error .receiveTimeout
  ∧ handleExpect compile "\"\"".toList [] = .error .receiveTimeout
  ∧ handleExpect compile "//".toList [] = .error .receiveTimeout := by
  have hci : ∀ b l : List Char,
      checkMatch ⟨[], .caseInsensitive, none⟩ b l = true := by
    intro b l
    show containsList (goToLower b) (goToLower []) = true
    exact containsList_nil _
  have hcs : ∀ b l : List Char,
      checkMatch ⟨[], .caseSensitive, none⟩ b l = true := by
    intro b l; rfl
  have hrx : ∀ b l : List Char,
      checkMatch ⟨[], .regex, some f⟩ b l = true := by
    intro b l; exact hf l
  have hp3 : parseExpectPattern compile "//".toList =
      .ok ⟨[], .regex, some f⟩ := by
    simp [parseExpectPattern, hc]
  refine ⟨rfl, rfl, hp3, fun b l => ⟨hci b l, hcs b l, hrx b l⟩, ?_, rfl, rfl, ?_⟩
  · intro c rest
    refine ⟨?_, ?_, ?_⟩
    · show expectLoop ⟨[], .caseInsensitive, none⟩ [] [] (c :: rest) = .ok rest
      simp [expectLoop, hci]
    · show expectLoop ⟨[], .caseSensitive, none⟩ [] [] (c :: rest) = .ok rest
      simp [expectLoop, hcs]
    · show handleExpect compile "//".toList (c :: rest) = .ok rest
      simp only [handleExpect, hp3]
      simp [expectLoop, hrx]
  · show handleExpect compile "//".toList [] = .error .receiveTimeout
    simp only [handleExpect, hp3]
    rfl

/-- Witness for C10: a concrete all-matching compile function; `''`
matching at the first character and `//` timing out on an empty arrival
trace. -/
theorem claim_C10_witness :
    handleExpect (fun _ => .ok (fun _ => true)) "''".toList ['x'] = .ok []
  ∧ handleExpect (fun _ => .ok (fun _ => true)) "//".toList ['x'] = .ok []
  ∧ handleExpect (fun _ => .ok (fun _ => true)) "//".toList []
      = .error .receiveTimeout :=
  ⟨((claim_C10 (fun _ => .ok (fun _ => true)) (fun _ => true) rfl
      (fun _ => rfl)).2.2.2.2.1 'x' []).1,
   ((claim_C10 (fun _ => .ok (fun _ => true)) (fun _ => true) rfl
      (fun _ => rfl)).2.2.2.2.1 'x' []).2.2,
   (claim_C10 (fun _ => .ok (fun _ => true)) (fun _ => true) rfl
      (fun _ => rfl)).2.2.2.2.2.2.2⟩

/-- The case-insensitive expect loop, characterized: starting (as the Go
function does) from an empty buffer, it succeeds iff the chunk of
characters received during THIS expect is nonempty and its lower-cased
concatenation contains the lower-cased pattern. -/
theorem expectLoop_ci (mid : List Char) :
    ∀ chars buf cl : List Char,
      (expectLoop ⟨mid, .caseInsensitive, none⟩ buf cl chars).isOk =
        (!chars.isEmpty &&
          containsList (goToLower (buf ++ chars)) (goToLower mid)) := by
  intro chars
  induction chars with
  | nil => intro buf cl; rfl
  | cons c rest ih =>
    intro buf cl
    have hcm : ∀ b l : List Char,
        checkMatch ⟨mid, .caseInsensitive, none⟩ b l =
          containsList (goToLower b) (goToLower mid) := fun _ _ => rfl
    simp only [expectLoop, hcm]
    by_cases h : containsList (goToLower (buf ++ [c])) (goToLower mid) = true
    · have hmono : containsList (goToLower (buf ++ c :: rest))
          (goToLower mid) = true := by
        have : buf ++ c :: rest = (buf ++ [c]) ++ rest := by simp
        rw [this, goToLower, List.map_append, ← goToLower, ← goToLower]
        exact containsList_append _ _ _ h
      simp [h, hmono, Except.isOk, Except.toBool]
    · simp only [h, if_false, Bool.false_eq_true]
      rw [ih (buf ++ [c]) (if c = '\n' then [] else cl ++ [c])]
      have hassoc : (buf ++ [c]) ++ rest = buf ++ c :: rest := by simp
      rw [hassoc]
      cases rest with
      | nil =>
        simp only [List.isEmpty_nil, List.isEmpty_cons, Bool.not_true,
          Bool.not_false, Bool.false_and, Bool.true_and]
        have : buf ++ [c] = buf ++ c :: ([] : List Char) := rfl
        rw [← this]
        simp [h]
      | cons d ds => simp

/-- Claim C4, amended: the rolling buffer of an Expect command is LOCAL to
that command — it starts empty when the Expect begins and accumulates
exactly the bytes received during that Expect, so a case-insensitive
substring match may span chunk boundaries within one Expect but sees
nothing received before the Expect began. -/
theorem claim_C4 (compile : List Char → Except String (List Char → Bool))
    (mid chars : List Char) :
    (handleExpect compile ('\'' :: (mid ++ ['\''])) chars).isOk =
      (!chars.isEmpty && containsList (goToLower chars) (goToLower mid)) := by
  have hp : parseExpectPattern compile ('\'' :: (mid ++ ['\''])) =
      .ok ⟨mid, .caseInsensitive, none⟩ := by
    simp [parseExpectPattern_frame]
  simp only [handleExpect, hp]
  have := expectLoop_ci mid chars [] []
  simpa using this

/-- Counterexample for C4 as stated: over the session input `hello`, a
first Expect `'e'` consumes `he`; the following Expect `'el'` then times
out even though the occurrence of `el` spans the two commands — the whole
session stream does contain `el` case-insensitively, so a buffer persisting
since session start would have matched. -/
theorem claim_C4_counterexample :
    handleExpect noCompile "'e'".toList "hello".toList = .ok "llo".toList
  ∧ runExpects noCompile ["'e'".toList, "'el'".toList] "hello".toList
      = .error .receiveTimeout
  ∧ containsList (goToLower "hello".toList) (goToLower "el".toList)
      = true := by
  refine ⟨rfl, rfl, by decide⟩

/-- Unfolding of the parser's line loop through `lineCommand`. -/
theorem parseLines_cons (l : List Char) (rest : List (List Char)) (i : Nat) :
    parseLines (l :: rest) i =
      (if goTrimSpace l = [] then parseLines rest (i + 1)
       else
         match lineCommand (goTrimSpace l) with
         | some c =>
           match parseLines rest (i + 1) with
           | .ok cs => .ok (c :: cs)
           | .error e => .error e
         | none => .error (.invalidCommand (i + 1) (goTrimSpace l))) := by
  simp only [parseLines, lineCommand]
  split_ifs <;> rfl

/-- Characterization of the line loop: with no bad line it returns exactly
the commands of the acceptable lines in order; otherwise it fails on the
FIRST bad line, reporting its 1-based number and trimmed content, and
returns no commands. -/
theorem parseLines_char :
    ∀ (lines : List (List Char)) (i : Nat),
      (firstBadLine lines i = none →
        parseLines lines i =
          .ok (lines.filterMap (fun l => lineCommand (goTrimSpace l))))
    ∧ (∀ (n : Nat) (bad : List Char), firstBadLine lines i = some (n, bad) →
        parseLines lines i = .error (.invalidCommand n bad)) := by
  intro lines
  induction lines with
  | nil => intro i; exact ⟨fun _ => rfl, fun n bad h => by simp [firstBadLine] at h⟩
  | cons l rest ih =>
    intro i
    by_cases hok : lineOk (goTrimSpace l) = true
    · have hfb : firstBadLine (l :: rest) i = firstBadLine rest (i + 1) := by
        simp [firstBadLine, hok]
      have hok' : goTrimSpace l = [] ∨
          (lineCommand (goTrimSpace l)).isSome = true := by
        simpa [lineOk, List.isEmpty_iff, Bool.or_eq_true] using hok
      rcases hok' with hnil | hsome
      · constructor
        · intro h
          rw [parseLines_cons, if_pos hnil, List.filterMap_cons]
          have : lineCommand (goTrimSpace l) = none := by
            rw [hnil]; rfl
          rw [this]
          exact (ih (i + 1)).1 (hfb ▸ h)
        · intro n bad h
          rw [parseLines_cons, if_pos hnil]
          exact (ih (i + 1)).2 n bad (hfb ▸ h)
      · obtain ⟨c, hc⟩ := Option.isSome_iff_exists.mp hsome
        have hne : ¬goTrimSpace l = [] := by
          intro hcon
          rw [hcon] at hc
          exact Option.noConfusion (show (none : Option Command) = some c from hc)
        constructor
        · intro h
          rw [parseLines_cons, if_neg hne, hc, List.filterMap_cons, hc]
          rw [(ih (i + 1)).1 (hfb ▸ h)]
        · intro n bad h
          rw [parseLines_cons, if_neg hne, hc]
          rw [(ih (i + 1)).2 n bad (hfb ▸ h)]
    · have hne : ¬goTrimSpace l = [] := by
        intro hcon
        apply hok
        simp [lineOk, hcon]
      have hnone : lineCommand (goTrimSpace l) = none := by
        cases hcc : lineCommand (goTrimSpace l) with
        | none => rfl
        | some c =>
          exact absurd (by simp [lineOk, hcc]) hok
      constructor
      · intro h
        simp [firstBadLine, hok] at h
      · intro n bad h
        simp only [firstBadLine, hok, if_false, Bool.false_eq_true] at h
        obtain ⟨hn, hbad⟩ := Prod.mk.injEq .. ▸ Option.some.injEq .. ▸ h
        rw [parseLines_cons, if_neg hne, hnone, ← hn, ← hbad]

/-- Claim C8: `parseScript` splits the trimmed body into lines, skips
empty (trimmed) lines, accepts exactly the four recognized command forms,
and on any other line fails identifying the first such line's 1-based
number and content, producing no commands at all. -/
theorem claim_C8 (text : List Char) :
    (firstBadLine (splitLines (goTrimSpace text)) 0 = none →
      parseScript text =
        .ok ((splitLines (goTrimSpace text)).filterMap
          (fun l => lineCommand (goTrimSpace l))))
  ∧ (∀ (n : Nat) (bad : List Char),
      firstBadLine (splitLines (goTrimSpace text)) 0 = some (n, bad) →
      parseScript text = .error (.invalidCommand n bad)) :=
  parseLines_char (splitLines (goTrimSpace text)) 0

/-- Witness for C8: a well-formed body parses to its command list; a body
whose second line is `wait 5` is rejected naming line 2 and that content. -/
theorem claim_C8_witness :
    parseScript "send hi\nexpect 'ok'\n\nmonitor".toList =
      .ok [⟨"send", "hi".toList, none, none⟩,
           ⟨"expect", "'ok'".toList, none, none⟩,
           ⟨"monitor", [], none, none⟩]
  ∧ parseScript "send hi\nwait 5".toList =
      .error (.invalidCommand 2 "wait 5".toList) := by
  constructor
  · rw [(claim_C8 "send hi\nexpect 'ok'\n\nmonitor".toList).1 (by decide)]
    rfl
  · exact (claim_C8 "send hi\nwait 5".toList).2 2 "wait 5".toList (by decide)

/-- Every command a valid script line produces is a send/expect/monitor
primitive. -/
theorem lineCommand_prim (l : List Char) (c : Command)
    (h : lineCommand l = some c) : primCmd c = true := by
  unfold lineCommand at h
  split_ifs at h <;> (injection h with h'; subst h'; rfl)

/-- Every command `parseScript` returns is a send/expect/monitor
primitive (the parser never emits `try` commands). -/
theorem parseScript_prim (t : List Char) (cs : List Command)
    (h : parseScript t = .ok cs) : ∀ c ∈ cs, primCmd c = true := by
  have hchar := parseLines_char (splitLines (goTrimSpace t)) 0
  cases hfb : firstBadLine (splitLines (goTrimSpace t)) 0 with
  | none =>
    have := hchar.1 hfb
    rw [show parseScript t = parseLines (splitLines (goTrimSpace t)) 0
      from rfl, this] at h
    injection h with h'
    subst h'
    intro c hc
    obtain ⟨l, _, hl⟩ := List.mem_filterMap.mp hc
    exact lineCommand_prim _ _ hl
  | some nb =>
    have := hchar.2 nb.1 nb.2 (by rw [hfb])
    rw [show parseScript t = parseLines (splitLines (goTrimSpace t)) 0
      from rfl, this] at h
    exact Except.noConfusion h

/-- Counting newlines: character event. -/
theorem countNl_cons_ch (c : Char) (rest : List MEv) :
    countNl (.ch c :: rest) = countNl rest + (if c = '\n' then 1 else 0) := by
  simp [countNl, List.countP_cons]

/-- Counting newlines: timer event. -/
theorem countNl_cons_tick (rest : List MEv) :
    countNl (.tick :: rest) = countNl rest := by
  simp [countNl, List.countP_cons]

/-- In line-counting mode with a positive bound, the monitor loop stops
with success once enough newlines arrive. -/
theorem monLoop_lines (n : Int) (hn : 0 < n) :
    ∀ (evs : List MEv) (lc : Nat), (lc : Int) < n →
      n ≤ (lc : Int) + (countNl evs : Int) → monLoop n lc evs = .ok () := by
  intro evs
  induction evs with
  | nil =>
    intro lc h1 h2
    exfalso
    simp [countNl] at h2
    omega
  | cons e rest ih =>
    intro lc h1 h2
    cases e with
    | ch c =>
      by_cases hc : c = '\n'
      · subst hc
        show (if ('\n' : Char) = '\n' then _ else _) = _
        rw [if_pos rfl]
        by_cases hreach : ((lc + 1 : Nat) : Int) ≥ n
        · simp only [if_pos (And.intro hn hreach)]
        · rw [countNl_cons_ch] at h2
          simp only [if_pos rfl] at h2
          rw [if_neg (fun hand => hreach hand.2)]
          apply ih (lc + 1) (by omega)
          push_cast at h2 ⊢
          omega
      · show (if c = '\n' then _ else _) = _
        rw [if_neg hc]
        rw [countNl_cons_ch, if_neg hc] at h2
        apply ih lc h1
        push_cast at h2 ⊢
        omega
    | tick =>
      show (if (n : Int) = 0 then _ else _) = _
      rw [countNl_cons_tick] at h2
      by_cases hz : n = 0
      · rw [if_pos hz]
      · rw [if_neg hz]
        exact ih lc h1 h2

/-- In time-counting mode (`maxLines = 0`), the monitor loop returns
SUCCESS at the first timer event, regardless of how many lines arrived
before it: the duration elapsing is never an error. -/
theorem monLoop_tick :
    ∀ (evs : List MEv) (lc : Nat), MEv.tick ∈ evs →
      monLoop 0 lc evs = .ok () := by
  intro evs
  induction evs with
  | nil => intro lc h; cases h
  | cons e rest ih =>
    intro lc h
    cases e with
    | ch c =>
      have hr : MEv.tick ∈ rest := by
        rcases List.mem_cons.mp h with h' | h'
        · exact absurd h' (by simp)
        · exact h'
      by_cases hc : c = '\n'
      · subst hc
        show (if ('\n' : Char) = '\n' then _ else _) = _
        rw [if_pos rfl, if_neg (fun hand => by omega)]
        exact ih (lc + 1) hr
      · show (if c = '\n' then _ else _) = _
        rw [if_neg hc]
        exact ih lc hr
    | tick =>
      show (if (0 : Int) = 0 then _ else _) = _
      rw [if_pos rfl]

/-- Claim C5: the empty monitor parameter selects the effectively
unbounded 24-hour duration; a nonempty parameter is parsed as a duration
first and as an integer line count only if the duration parse fails; if
neither parses the monitor fails with a parse error for EVERY event trace
(no channel interaction); in line mode a positive bound being reached is
success; in duration mode the timer firing is success, never an error. -/
theorem claim_C5 :
    parseMonitorParam [] = .ok (86400000000000, 0)
  ∧ (∀ (p : List Char) (d : Int), goParseDuration p = .ok d →
       parseMonitorParam p = .ok (d, 0))
  ∧ (∀ (p : List Char) (n : Int), goParseDuration p = .error () →
       goAtoi p = .ok n → parseMonitorParam p = .ok (0, n))
  ∧ (∀ p : List Char, p ≠ [] → goParseDuration p = .error () →
       goAtoi p = .error () →
       ∀ evs : List MEv, handleMonitor p evs = .error .invalidParameter)
  ∧ (∀ (p : List Char) (n : Int) (evs : List MEv),
       parseMonitorParam p = .ok (0, n) → 0 < n →
       n ≤ (countNl evs : Int) → handleMonitor p evs = .ok ())
  ∧ (∀ (p : List Char) (d : Int) (evs : List MEv),
       parseMonitorParam p = .ok (d, 0) → MEv.tick ∈ evs →
       handleMonitor p evs = .ok ()) := by
  refine ⟨rfl, ?_, ?_, ?_, ?_, ?_⟩
  · intro p d h
    by_cases hp : p = []
    · subst hp
      rw [show goParseDuration [] = .error () from rfl] at h
      exact Except.noConfusion h
    · simp [parseMonitorParam, hp, h]
  · intro p n hd ha
    by_cases hp : p = []
    · subst hp
      rw [show goAtoi [] = .error () from rfl] at ha
      exact Except.noConfusion ha
    · simp [parseMonitorParam, hp, hd, ha]
  · intro p hp hd ha evs
    simp [handleMonitor, parseMonitorParam, hp, hd, ha]
  · intro p n evs hpar hn hcount
    simp only [handleMonitor, hpar]
    exact monLoop_lines n hn evs 0 (by omega) (by push_cast; omega)
  · intro p d evs hpar htick
    simp only [handleMonitor, hpar]
    exact monLoop_tick evs 0 htick

/-- Witness for C5: `monitor 2` succeeds after two lines, `monitor 5s`
succeeds at the timer, `monitor zz` fails before consuming any event, and
`monitor 2m30s` parses as a duration. -/
theorem claim_C5_witness :
    handleMonitor "2".toList [.ch 'a', .ch '\n', .ch '\n'] = .ok ()
  ∧ handleMonitor "5s".toList [.ch '\n', .tick] = .ok ()
  ∧ handleMonitor "zz".toList [] = .error .invalidParameter
  ∧ parseMonitorParam "2m30s".toList = .ok (150000000000, 0) :=
  ⟨claim_C5.2.2.2.2.1 "2".toList 2 [.ch 'a', .ch '\n', .ch '\n']
     rfl (by decide) (by decide),
   claim_C5.2.2.2.2.2 "5s".toList 5000000000 [.ch '\n', .tick]
     rfl (by decide),
   claim_C5.2.2.2.1 "zz".toList (by decide) rfl rfl [],
   claim_C5.2.1 "2m30s".toList 150000000000 rfl⟩

/-- Claim C6: with at least one Monitor command in the sequence the
effective session bound is the extended 24-hour value — the configured
script timeout never aborts the run (any completion within the extended
bound is delivered, even long after the configured timeout); without a
Monitor command, once the configured script timeout elapses the run is
aborted with a script-timeout failure, which is a different outcome from
any completed (e.g. pattern-match) failure. -/
theorem claim_C6 {ε : Type} (cmds : List Command) (scriptTimeout : Nat)
    (r : Except ε Unit) (completionTime : Nat) :
    (hasMonitorCommand cmds = true →
       effectiveSessionBound cmds scriptTimeout = nanos24h
     ∧ (completionTime < nanos24h →
         executeScriptWithTimeout cmds scriptTimeout r completionTime =
           .completed r))
  ∧ (hasMonitorCommand cmds = false →
       effectiveSessionBound cmds scriptTimeout = scriptTimeout
     ∧ (scriptTimeout ≤ completionTime →
         executeScriptWithTimeout cmds scriptTimeout r completionTime =
           .timedOut scriptTimeout))
  ∧ (∀ (t : Nat) (e : ε),
       (SessionResult.timedOut t : SessionResult ε) ≠ .completed (.error e)
     ∧ (SessionResult.timedOutExtended : SessionResult ε) ≠
         .completed (.error e)) := by
  refine ⟨?_, ?_, ?_⟩
  · intro hmon
    have hb : effectiveSessionBound cmds scriptTimeout = nanos24h := by
      simp [effectiveSessionBound, hmon]
    refine ⟨hb, fun hct => ?_⟩
    simp [executeScriptWithTimeout, hb, hct]
  · intro hmon
    have hb : effectiveSessionBound cmds scriptTimeout = scriptTimeout := by
      simp [effectiveSessionBound, hmon]
    refine ⟨hb, fun hct => ?_⟩
    simp [executeScriptWithTimeout, hb, hmon, Nat.not_lt.mpr hct]
  · intro t e
    exact ⟨fun h => SessionResult.noConfusion h,
           fun h => SessionResult.noConfusion h⟩

/-- Witness for C6: a bare `monitor` command sequence with the default
60-second script timeout is not aborted at a completion time of 5 seconds
of simulated monitoring (it would also survive far past 60 seconds), while
the same timing without the monitor command times out. -/
theorem claim_C6_witness :
    executeScriptWithTimeout [⟨"monitor", [], none, none⟩] 60000000000
      (.ok () : Except Unit Unit) 120000000000 = .completed (.ok ())
  ∧ executeScriptWithTimeout ([⟨"send", "'a'".toList, none, none⟩] :
      List Command) 60000000000 (.ok () : Except Unit Unit) 120000000000 =
      .timedOut 60000000000 :=
  ⟨((claim_C6 [⟨"monitor", [], none, none⟩] 60000000000
      (.ok () : Except Unit Unit) 120000000000).1 (by decide)).2 (by decide),
   ((claim_C6 [⟨"send", "'a'".toList, none, none⟩] 60000000000
      (.ok () : Except Unit Unit) 120000000000).2.1 (by decide)).2
      (by decide)⟩

/-- Counterexample for C9 as stated: in dry-run mode a TOP-LEVEL Expect
whose pattern matches no remaining transcript line does NOT continue — it
aborts the dry run with a pattern-not-found error, and the following
command is never reached. -/
theorem claim_C9_counterexample :
    executeDryRun noCompile
      [⟨"expect", "'xyz'".toList, none, none⟩,
       ⟨"send", "'a'".toList, none, none⟩]
      ["abc".toList] = .error (.notFound "'xyz'".toList) := rfl

/-- Claim C9, amended: only Expect mismatches INSIDE a Try block's main
script are non-aborting in dry-run mode — there the replay always runs to
completion for every transcript, provided each expect pattern compiles; a
top-level Expect whose pattern matches no remaining transcript line aborts
the dry run with a pattern-not-found error. -/
theorem claim_C9 (compile : List Char → Except String (List Char → Bool)) :
    (∀ (cmds : List Command) (ls : List (List Char)),
       (∀ c ∈ cmds, c.type = "expect" →
         ∃ ep, parseExpectPattern compile c.value = .ok ep) →
       ∃ ls', dryRunSub compile cmds ls = .ok ls')
  ∧ (∀ (v : List Char) (ep : ExpectPattern) (cs : List Command)
       (ls : List (List Char)),
       parseExpectPattern compile v = .ok ep → dryExpectScan ep ls = none →
       executeDryRun compile (⟨"expect", v, none, none⟩ :: cs) ls =
         .error (.notFound v)) := by
  constructor
  · intro cmds
    induction cmds with
    | nil => intro ls _; exact ⟨ls, rfl⟩
    | cons c cs ih =>
      intro ls hpat
      have hpat' : ∀ c' ∈ cs, c'.type = "expect" →
          ∃ ep, parseExpectPattern compile c'.value = .ok ep :=
        fun c' hc' => hpat c' (List.mem_cons_of_mem c hc')
      by_cases hsend : c.type = "send"
      · simp only [dryRunSub, if_pos hsend]
        exact ih ls hpat'
      · by_cases hexp : c.type = "expect"
        · obtain ⟨ep, hep⟩ := hpat c (List.mem_cons_self c cs) hexp
          simp only [dryRunSub, if_neg hsend, if_pos hexp, hep]
          cases hscan : dryExpectScan ep ls with
          | some rest => exact ih rest hpat'
          | none => exact ih [] hpat'
        · by_cases hmon : c.type = "monitor"
          · simp only [dryRunSub, if_neg hsend, if_neg hexp, if_pos hmon]
            exact ih (ls.drop 10) hpat'
          · simp only [dryRunSub, if_neg hsend, if_neg hexp, if_neg hmon]
            exact ih ls hpat'
  · intro v ep cs ls hep hscan
    simp only [executeDryRun, if_neg (by decide : ¬("expect" = "send")),
      if_pos rfl, hep, hscan]
    simp

/-- Witness for C9: inside a try block, an expect that matches nothing is
skipped and the replay completes after the remaining send. -/
theorem claim_C9_witness :
    ∃ ls', dryRunSub noCompile
      [⟨"expect", "'xyz'".toList, none, none⟩,
       ⟨"send", "'a'".toList, none, none⟩]
      ["abc".toList] = .ok ls' :=
  (claim_C9 noCompile).1
    [⟨"expect", "'xyz'".toList, none, none⟩,
     ⟨"send", "'a'".toList, none, none⟩]
    ["abc".toList]
    (by
      intro c hc ht
      rcases List.mem_cons.mp hc with hc' | hc'
      · subst hc'
        exact ⟨⟨"xyz".toList, .caseInsensitive, none⟩, rfl⟩
      · rcases List.mem_cons.mp hc' with hc'' | hc''
        · subst hc''
          exact absurd ht (by decide)
        · cases hc'')

/-- Overwrite branch of `smInsert`: the rewritten map binds `k` to `v`. -/
theorem smLookup_map_overwrite (k : String) (v : NamedScript) :
    ∀ m : List (String × NamedScript), m.any (fun p => p.1 = k) = true →
      smLookup (m.map (fun p => if p.1 = k then (k, v) else p)) k = some v := by
  intro m
  induction m with
  | nil => intro h; simp at h
  | cons p rest ih =>
    intro h
    by_cases hp : p.1 = k
    · simp [smLookup, hp]
    · have h' : rest.any (fun q => q.1 = k) = true := by
        simpa [List.any_cons, hp] using h
      have := ih h'
      simp only [smLookup] at this ⊢
      rw [List.map_cons, if_neg hp, List.find?_cons_of_neg _ (by simpa)]
      exact this

/-- Append branch of `smInsert`: looking up the appended fresh key. -/
theorem smLookup_append_new (k : String) (v : NamedScript) :
    ∀ m : List (String × NamedScript),
      smLookup (m ++ [(k, v)]) k = (smLookup m k).orElse (fun _ => some v) := by
  intro m
  induction m with
  | nil => simp [smLookup]
  | cons p rest ih =>
    by_cases hp : p.1 = k
    · simp [smLookup, hp]
    · simp only [smLookup] at ih ⊢
      rw [List.cons_append, List.find?_cons_of_neg _ (by simpa),
        List.find?_cons_of_neg _ (by simpa)]
      exact ih

/-- Inserting with `smInsert` binds the key to the value. -/
theorem smLookup_insert_self (m : List (String × NamedScript)) (k : String)
    (v : NamedScript) : smLookup (smInsert m k v) k = some v := by
  unfold smInsert
  by_cases hany : m.any (fun p => p.1 = k) = true
  · rw [if_pos hany]
    exact smLookup_map_overwrite k v m hany
  · rw [if_neg hany]
    rw [smLookup_append_new k v m]
    have hnone : smLookup m k = none := by
      unfold smLookup
      rw [List.find?_eq_none.mpr]
      · rfl
      · intro p hp
        intro hcon
        exact hany (List.any_eq_true.mpr ⟨p, hp, hcon⟩)
    rw [hnone]
    rfl

/-- Inserting with `smInsert` leaves every other key unchanged (overwrite
branch). -/
theorem smLookup_map_other (k x : String) (v : NamedScript) (hx : x ≠ k) :
    ∀ m : List (String × NamedScript),
      smLookup (m.map (fun p => if p.1 = k then (k, v) else p)) x =
        smLookup m x := by
  intro m
  induction m with
  | nil => rfl
  | cons p rest ih =>
    by_cases hp : p.1 = k
    · have hkx : ¬((k, v).1 = x) := by simpa using fun h => hx h.symm
      have hpx : ¬p.1 = x := by rw [hp]; exact fun h => hx h.symm
      simp only [smLookup] at ih ⊢
      rw [List.map_cons, if_pos hp, List.find?_cons_of_neg _ (by simpa using hkx),
        List.find?_cons_of_neg _ (by simpa using hpx)]
      exact ih
    · simp only [smLookup] at ih ⊢
      rw [List.map_cons, if_neg hp]
      by_cases hpx : p.1 = x
      · rw [List.find?_cons_of_pos _ (by simpa using hpx),
          List.find?_cons_of_pos _ (by simpa using hpx)]
      · rw [List.find?_cons_of_neg _ (by simpa using hpx),
          List.find?_cons_of_neg _ (by simpa using hpx)]
        exact ih

/-- Appending a fresh binding leaves the lookup of other keys unchanged. -/
theorem smLookup_append_other (k x : String) (v : NamedScript) (hx : x ≠ k) :
    ∀ m : List (String × NamedScript),
      smLookup (m ++ [(k, v)]) x = smLookup m x := by
  intro m
  induction m with
  | nil =>
    simp only [List.nil_append, smLookup]
    rw [List.find?_cons_of_neg _ (by simpa using fun h => hx h.symm)]
  | cons p rest ih =>
    simp only [smLookup] at ih ⊢
    by_cases hpx : p.1 = x
    · rw [List.cons_append, List.find?_cons_of_pos _ (by simpa using hpx),
        List.find?_cons_of_pos _ (by simpa using hpx)]
    · rw [List.cons_append, List.find?_cons_of_neg _ (by simpa using hpx),
        List.find?_cons_of_neg _ (by simpa using hpx)]
      exact ih

/-- Inserting with `smInsert` leaves every other key unchanged. -/
theorem smLookup_insert_other (m : List (String × NamedScript))
    (k x : String) (v : NamedScript) (hx : x ≠ k) :
    smLookup (smInsert m k v) x = smLookup m x := by
  unfold smInsert
  by_cases hany : m.any (fun p => p.1 = k) = true
  · rw [if_pos hany]
    exact smLookup_map_other k x v hx m
  · rw [if_neg hany]
    exact smLookup_append_other k x v hx m

/-- Inserting with `smInsert` never removes a key: presence is preserved. -/
theorem smLookup_insert_isSome (m : List (String × NamedScript))
    (k x : String) (v : NamedScript)
    (h : (smLookup m x).isSome = true) :
    (smLookup (smInsert m k v) x).isSome = true := by
  by_cases hx : x = k
  · subst hx
    rw [smLookup_insert_self]
    rfl
  · rw [smLookup_insert_other m k x v hx]
    exact h

/-- Monotonicity of `addTries`: keys present before stay present. -/
theorem addTries_preserve (x : String) :
    ∀ (ts : List TryBlock) (m m' : List (String × NamedScript)),
      addTries m ts = .ok m' → (smLookup m x).isSome = true →
      (smLookup m' x).isSome = true := by
  intro ts
  induction ts with
  | nil =>
    intro m m' h hx
    simp only [addTries] at h
    injection h with h'
    exact h' ▸ hx
  | cons tb rest ih =>
    intro m m' h hx
    simp only [addTries] at h
    split_ifs at h
    exact ih _ m' h (smLookup_insert_isSome m tb.name x _ hx)

/-- Validation performed by `addTries`: on success, every try block's
`script` reference — and its `except` reference when configured — is
present in the final map, whether or not that try block is ever
selected. -/
theorem addTries_refs :
    ∀ (ts : List TryBlock) (m m' : List (String × NamedScript)),
      addTries m ts = .ok m' →
      ∀ tb ∈ ts, (smLookup m' tb.script).isSome = true
        ∧ (tb.except ≠ "" → (smLookup m' tb.except).isSome = true) := by
  intro ts
  induction ts with
  | nil => intro m m' _ tb htb; cases htb
  | cons tb0 rest ih =>
    intro m m' h tb htb
    simp only [addTries] at h
    split_ifs at h with h1 h2 h3
    rcases List.mem_cons.mp htb with heq | hmem
    · subst heq
      constructor
      · have hm : (smLookup m tb.script).isSome = true := by
          cases hl : smLookup m tb.script with
          | none => exact absurd (by rw [hl]; rfl) h2
          | some s => rfl
        exact addTries_preserve tb.script rest _ m' h
          (smLookup_insert_isSome m tb.name tb.script _ hm)
      · intro hexc
        have hm : (smLookup m tb.except).isSome = true := by
          cases hl : smLookup m tb.except with
          | none => exact absurd ⟨hexc, by rw [hl]; rfl⟩ h3
          | some s => rfl
        exact addTries_preserve tb.except rest _ m' h
          (smLookup_insert_isSome m tb.name tb.except _ hm)
    · exact ih _ m' h tb hmem

/-- A successful resolution implies the try-validation pass succeeded. -/
theorem selectScripts_validates (config : Config) (names : List String)
    (sel : List NamedScript) (h : selectScripts config names = .ok sel) :
    (addTries (buildScriptMapAll config.scripts) config.tries).isOk
      = true := by
  unfold selectScripts at h
  cases haddt : addTries (buildScriptMapAll config.scripts) config.tries with
  | error e => rw [haddt] at h; exact Except.noConfusion h
  | ok m => rfl

/-- A named config script is present in the try-execution map built by
`parseTryBlock` (which skips only unnamed scripts). -/
theorem tryScriptMap_lookup (k : String) (hk : k ≠ "") :
    ∀ (scripts : List NamedScript) (m : List (String × NamedScript)),
      ((smLookup m k).isSome = true ∨ ∃ s ∈ scripts, s.name = k) →
      (smLookup (scripts.foldl
        (fun m s => if s.name = "" then m else smInsert m s.name s) m)
        k).isSome = true := by
  intro scripts
  induction scripts with
  | nil =>
    intro m h
    rcases h with h | ⟨s, hs, _⟩
    · exact h
    · cases hs
  | cons s rest ih =>
    intro m h
    rw [List.foldl_cons]
    by_cases hname : s.name = ""
    · rw [if_pos hname]
      apply ih
      rcases h with h | ⟨s', hs', hn'⟩
      · exact Or.inl h
      · rcases List.mem_cons.mp hs' with heq | hmem
        · exact absurd (heq ▸ hname) (hn' ▸ hk)
        · exact Or.inr ⟨s', hmem, hn'⟩
    · rw [if_neg hname]
      apply ih
      rcases h with h | ⟨s', hs', hn'⟩
      · exact Or.inl (smLookup_insert_isSome m s.name k s h)
      · rcases List.mem_cons.mp hs' with heq | hmem
        · subst heq
          rw [hn']
          exact Or.inl (by rw [smLookup_insert_self]; rfl)
        · exact Or.inr ⟨s', hmem, hn'⟩

/-- Counterexample for C7 as stated: resolving the try block `t` succeeds
(the reference `script1` is validated against the map WITH default-named
scripts), yet executing the selected Try command fails at runtime with a
script-not-found error, because the runtime map built for try execution
skips unnamed scripts. -/
theorem claim_C7_counterexample :
    selectScripts cexConfig ["t"] = .ok [⟨"t", tryMarker "t"⟩]
  ∧ (handleTry (fun (_ : Command) (s : Unit) => ((.ok () : Except Unit Unit), s))
      ⟨"t", "script1", "", false⟩ (tryScriptMap cexConfig) ()).1 =
      .error (.mainNotFound "script1" "t") :=
  ⟨rfl, rfl⟩

/-- When a try block's `script` and configured `except` references name
explicitly NAMED config scripts, `handleTry` never fails with a
script-not-found error at runtime. -/
theorem handleTry_named_refs {σ ε : Type}
    (exec : Command → σ → Except ε Unit × σ)
    (tb : TryBlock) (config : Config) (s : σ) (a b : String)
    (hmain : ∃ ms ∈ config.scripts, ms.name = tb.script ∧ tb.script ≠ "")
    (hexc : tb.except ≠ "" → ∃ es ∈ config.scripts, es.name = tb.except) :
    (handleTry exec tb (tryScriptMap config) s).1 ≠ .error (.mainNotFound a b)
  ∧ (handleTry exec tb (tryScriptMap config) s).1 ≠
      .error (.exceptNotFound a b) := by
  obtain ⟨ms0, hmem, hname, hne⟩ := hmain
  have hmS : (smLookup (tryScriptMap config) tb.script).isSome = true :=
    tryScriptMap_lookup tb.script hne config.scripts []
      (Or.inr ⟨ms0, hmem, hname⟩)
  obtain ⟨ms, hms⟩ := Option.isSome_iff_exists.mp hmS
  cases hp : parseScript ms.content with
  | error e =>
    simp only [handleTry, hms, hp]
    exact ⟨fun hcon => by injection hcon with h'; exact TryErr.noConfusion h',
           fun hcon => by injection hcon with h'; exact TryErr.noConfusion h'⟩
  | ok cmds =>
    rcases htr : tryAttempts exec cmds (if tb.retry then 2 else 1) s
      with ⟨le, s1⟩
    cases le with
    | none =>
      simp only [handleTry, hms, hp, htr]
      exact ⟨fun hcon => Except.noConfusion hcon,
             fun hcon => Except.noConfusion hcon⟩
    | some e0 =>
      by_cases hE : tb.except = ""
      · simp only [handleTry, hms, hp, htr, hE]
        simp only [ne_eq, not_true_eq_false, if_false]
        exact ⟨fun hcon => by injection hcon with h'; exact TryErr.noConfusion h',
               fun hcon => by injection hcon with h'; exact TryErr.noConfusion h'⟩
      · obtain ⟨es0, hesmem, hesname⟩ := hexc hE
        have heS : (smLookup (tryScriptMap config) tb.except).isSome = true :=
          tryScriptMap_lookup tb.except hE config.scripts []
            (Or.inr ⟨es0, hesmem, hesname⟩)
        obtain ⟨es, hes⟩ := Option.isSome_iff_exists.mp heS
        cases hpe : parseScript es.content with
        | error e =>
          simp only [handleTry, hms, hp, htr, hes, hpe]
          simp only [ne_eq, hE, not_false_eq_true, if_true]
          exact ⟨fun hcon => by injection hcon with h'; exact TryErr.noConfusion h',
                 fun hcon => by injection hcon with h'; exact TryErr.noConfusion h'⟩
        | ok ecmds =>
          simp only [handleTry, hms, hp, htr, hes, hpe]
          simp only [ne_eq, hE, not_false_eq_true, if_true]
          exact ⟨fun hcon => by injection hcon with h'; exact TryErr.noConfusion h',
                 fun hcon => by injection hcon with h'; exact TryErr.noConfusion h'⟩

/-- Claim C7, amended: resolution validates every try block's references
(selected or not) against the map of default-named scripts, and resolution
fails when one is missing; but a successful resolution rules out runtime
script-not-found errors only for references to explicitly NAMED scripts —
a try block referencing an unnamed script's synthesized default name
resolves yet fails at runtime (see the counterexample), because the
runtime map skips unnamed scripts. -/
theorem claim_C7 :
    (∀ (config : Config) (names : List String) (sel : List NamedScript),
       selectScripts config names = .ok sel →
       (addTries (buildScriptMapAll config.scripts) config.tries).isOk
         = true)
  ∧ (∀ (config : Config) (m : List (String × NamedScript)),
       addTries (buildScriptMapAll config.scripts) config.tries = .ok m →
       ∀ tb ∈ config.tries, (smLookup m tb.script).isSome = true
         ∧ (tb.except ≠ "" → (smLookup m tb.except).isSome = true))
  ∧ (∀ (σ ε : Type) (exec : Command → σ → Except ε Unit × σ)
       (tb : TryBlock) (config : Config) (s : σ) (a b : String),
       (∃ ms ∈ config.scripts, ms.name = tb.script ∧ tb.script ≠ "") →
       (tb.except ≠ "" → ∃ es ∈ config.scripts, es.name = tb.except) →
       (handleTry exec tb (tryScriptMap config) s).1 ≠
           .error (.mainNotFound a b)
       ∧ (handleTry exec tb (tryScriptMap config) s).1 ≠
           .error (.exceptNotFound a b)) :=
  ⟨selectScripts_validates,
   fun config m h => addTries_refs config.tries _ m h,
   fun _ _ exec tb config s a b h1 h2 =>
     handleTry_named_refs exec tb config s a b h1 h2⟩

/-- Witness for C7: with named references, resolution validates and the
runtime lookup cannot fail with script-not-found. -/
theorem claim_C7_witness :
    (addTries (buildScriptMapAll c7config.scripts) c7config.tries).isOk
      = true
  ∧ (handleTry (fun (_ : Command) (s : Unit) => ((.ok () : Except Unit Unit), s))
      ⟨"t", "main", "exc", true⟩ (tryScriptMap c7config) ()).1 ≠
      .error (.mainNotFound "main" "t") :=
  ⟨claim_C7.1 c7config ["t"] [⟨"t", tryMarker "t"⟩] rfl,
   (claim_C7.2.2 Unit Unit
(fun (_ : Command) (s : Unit) => ((.ok () : Except Unit Unit), s))
      ⟨"t", "main", "exc", true⟩ c7config () "main" "t"
      ⟨⟨"main", "send 'x'".toList⟩, by simp [c7config], rfl, by decide⟩
      (fun _ => ⟨⟨"exc", "send 'y'".toList⟩, by simp [c7config], rfl⟩)).1⟩

/-- Instrumentation of the attempt loop: running under the logging
executor threads the base state identically and appends exactly the
primitive commands of the list, in order, to the log. -/
theorem runAttemptCmds_log {σ ε : Type}
    (exec : Command → σ → Except ε Unit × σ) :
    ∀ (cmds : List Command) (le : Option ε) (s : σ) (l : List Command),
      runAttemptCmds (execLog exec) cmds le (s, l) =
        ((runAttemptCmds exec cmds le s).1,
         ((runAttemptCmds exec cmds le s).2, l ++ cmds.filter primCmd)) := by
  intro cmds
  induction cmds with
  | nil => intro le s l; simp [runAttemptCmds]
  | cons c cs ih =>
    intro le s l
    by_cases hc : primCmd c = true
    · rcases hx : exec c s with ⟨r, s'⟩
      have hlog : execLog exec c (s, l) = (r, (s', l ++ [c])) := by
        simp [execLog, hx]
      cases r with
      | ok u =>
        simp only [runAttemptCmds, hc, if_true, hlog, hx]
        rw [ih le s' (l ++ [c])]
        simp [List.filter_cons, hc]
      | error e =>
        simp only [runAttemptCmds, hc, if_true, hlog, hx]
        rw [ih (some e) s' (l ++ [c])]
        simp [List.filter_cons, hc]
    · simp only [runAttemptCmds, hc, if_false]
      rw [ih le s l]
      simp [List.filter_cons, hc]

/-- Instrumentation of the except-script loop: every primitive command of
the list is executed (appended to the log), regardless of any failures. -/
theorem runExceptCmds_log {σ ε : Type}
    (exec : Command → σ → Except ε Unit × σ) :
    ∀ (cmds : List Command) (s : σ) (l : List Command),
      runExceptCmds (execLog exec) cmds (s, l) =
        (runExceptCmds exec cmds s, l ++ cmds.filter primCmd) := by
  intro cmds
  induction cmds with
  | nil => intro s l; simp [runExceptCmds]
  | cons c cs ih =>
    intro s l
    by_cases hc : primCmd c = true
    · rcases hx : exec c s with ⟨r, s'⟩
      have hlog : execLog exec c (s, l) = (r, (s', l ++ [c])) := by
        simp [execLog, hx]
      simp only [runExceptCmds, hc, if_true, hlog, hx]
      rw [ih s' (l ++ [c])]
      simp [List.filter_cons, hc]
    · simp only [runExceptCmds, hc, if_false]
      rw [ih s l]
      simp [List.filter_cons, hc]

/-- The attempt loop with one allowed attempt is a single run. -/
theorem tryAttempts_one {σ ε : Type} (exec : Command → σ → Except ε Unit × σ)
    (cmds : List Command) (s : σ) :
    tryAttempts exec cmds 1 s = runAttemptCmds exec cmds none s := by
  rcases h : runAttemptCmds exec cmds none s with ⟨le, s'⟩
  cases le <;> simp [tryAttempts, h]

/-- The attempt loop with two allowed attempts, after a failing first
attempt, is the single remaining attempt from the reached state. -/
theorem tryAttempts_two {σ ε : Type} (exec : Command → σ → Except ε Unit × σ)
    (cmds : List Command) (s s1 : σ) (e1 : ε)
    (h1 : runAttemptCmds exec cmds none s = (some e1, s1)) :
    tryAttempts exec cmds 2 s = tryAttempts exec cmds 1 s1 := by
  simp [tryAttempts, h1]

/-- Claim C1: for a Try command whose main script fails on every attempt,
the main script's commands are executed exactly twice when `retry` is set
and exactly once otherwise; afterwards every command of the configured
except script is attempted (the log records the two/one full main runs
followed by ALL except commands); and the result is always a failure
wrapping the error recorded by the main-script attempts (`e`, fixed by
`hatt` independently of anything the except commands do). -/
theorem claim_C1 {σ ε : Type} (exec : Command → σ → Except ε Unit × σ)
    (tb : TryBlock) (map : List (String × NamedScript)) (s0 : σ)
    (ms : NamedScript) (cmds ecmds : List Command) (e : ε) (sA : σ)
    (hm : smLookup map tb.script = some ms)
    (hp : parseScript ms.content = .ok cmds)
    (hfail : ∀ s : σ, (runAttemptCmds exec cmds none s).1 ≠ none)
    (hatt : tryAttempts exec cmds (if tb.retry then 2 else 1) s0 = (some e, sA))
    (hexc : (tb.except = "" ∧ ecmds = [])
        ∨ (tb.except ≠ "" ∧ ∃ es, smLookup map tb.except = some es
            ∧ parseScript es.content = .ok ecmds)) :
    handleTry (execLog exec) tb map (s0, ([] : List Command)) =
      (.error (.tryFailed tb.name e),
       (runExceptCmds exec ecmds sA,
        (if tb.retry then cmds ++ cmds else cmds) ++ ecmds)) := by
  have hfilter : cmds.filter primCmd = cmds :=
    List.filter_eq_self.mpr (parseScript_prim ms.content cmds hp)
  have hattLog : tryAttempts (execLog exec) cmds (if tb.retry then 2 else 1)
      (s0, ([] : List Command)) =
      (some e, (sA, if tb.retry then cmds ++ cmds else cmds)) := by
    cases hr : tb.retry with
    | false =>
      rw [hr] at hatt
      have hatt' : runAttemptCmds exec cmds none s0 = (some e, sA) := by
        rw [← tryAttempts_one]
        simpa using hatt
      simp only [hr, if_false, Bool.false_eq_true]
      rw [tryAttempts_one, runAttemptCmds_log, hatt']
      simp [hfilter]
    | true =>
      rw [hr] at hatt
      simp only [hr, if_true]
      rcases h1 : runAttemptCmds exec cmds none s0 with ⟨le1, s1⟩
      cases le1 with
      | none =>
        exact absurd
          (by rw [h1] : (runAttemptCmds exec cmds none s0).1 = none)
          (hfail s0)
      | some e1 =>
        have hatt' : tryAttempts exec cmds 2 s0 = (some e, sA) := by
          simpa using hatt
        rw [tryAttempts_two exec cmds s0 s1 e1 h1] at hatt'
        rw [tryAttempts_one] at hatt'
        have hlog1 : runAttemptCmds (execLog exec) cmds none
            (s0, ([] : List Command)) = (some e1, (s1, cmds)) := by
          rw [runAttemptCmds_log, h1]
          simp [hfilter]
        rw [tryAttempts_two (execLog exec) cmds (s0, ([] : List Command))
          (s1, cmds) e1 hlog1]
        rw [tryAttempts_one, runAttemptCmds_log, hatt']
        simp [hfilter]
  rcases hexc with ⟨hE, hEnil⟩ | ⟨hE, es, hles, hpes⟩
  · simp only [handleTry, hm, hp, hattLog, hE]
    simp [hEnil, runExceptCmds]
  · have hefilter : ecmds.filter primCmd = ecmds :=
      List.filter_eq_self.mpr (parseScript_prim es.content ecmds hpes)
    simp only [handleTry, hm, hp, hattLog, hles, hpes]
    simp only [ne_eq, hE, not_false_eq_true, if_true]
    rw [runExceptCmds_log]
    simp [hefilter]

/-- Witness for C1: an always-failing executor, a retrying try block with
an except script of two commands; the log shows the main command twice and
both except commands, and the result wraps the main-script error. -/
theorem claim_C1_witness :
    handleTry (execLog (fun (_ : Command) (s : Unit) =>
        ((.error "boom" : Except String Unit), s)))
      ⟨"t", "main", "exc", true⟩
      [("main", ⟨"main", "send 'a'".toList⟩),
       ("exc", ⟨"exc", "send 'y'\nsend 'z'".toList⟩)]
      ((), ([] : List Command)) =
      (.error (.tryFailed "t" "boom"),
       ((), [⟨"send", "'a'".toList, none, none⟩,
             ⟨"send", "'a'".toList, none, none⟩,
             ⟨"send", "'y'".toList, none, none⟩,
             ⟨"send", "'z'".toList, none, none⟩])) :=
  claim_C1 (fun _ s => (.error "boom", s)) ⟨"t", "main", "exc", true⟩
    [("main", ⟨"main", "send 'a'".toList⟩),
     ("exc", ⟨"exc", "send 'y'\nsend 'z'".toList⟩)] ()
    ⟨"main", "send 'a'".toList⟩ [⟨"send", "'a'".toList, none, none⟩]
    [⟨"send", "'y'".toList, none, none⟩, ⟨"send", "'z'".toList, none, none⟩]
    "boom" () rfl rfl (fun _ hcon => Option.noConfusion hcon) rfl
    (Or.inr ⟨by decide, ⟨"exc", "send 'y'\nsend 'z'".toList⟩, rfl, rfl⟩)

/-- Claim C2, evaluated at the failing input: in a single attempt of a Try
main script `send 'a'` / `send 'b'` where BOTH commands fail, the second
command is still executed after the first one's failure (the log records
both), and the attempt's reported error is the SECOND failure, not the
first — the `break` after recording `lastError` in the Go source only
exits the `switch`, so the claim's abort-on-first-error does not hold
inside a Try attempt. -/
theorem claim_C2_code_eval :
    handleTry failLogExec ⟨"t", "main", "", false⟩
      [("main", ⟨"main", "send 'a'\nsend 'b'".toList⟩)] ([] : List String) =
      (.error (.tryFailed "t" "'b'"), ["'a'", "'b'"]) := rfl

end SerialExpect
